import Mathlib

/-
Verification development for the MongoDB datastore stub
(datastore_mongodb_stub.py): shallow embedding of the key codec,
value codec, query translation, cursor offset emulation, projection
splitting and the schema manager, with theorems checking the
natural-language specification against the code.

Python strings that the code splits and joins are modelled as lists of
characters (PyStr); byte strings (Python 2 str) as lists of byte values.
-/

namespace DSMongo

/-- Python exceptions that the embedded code can raise.  A name error
carries the identifier that was referenced without being assigned. -/
inductive PyErr where
  | nameError (var : String)
  | keyError
  | typeError
  | valueError
  | indexError
deriving DecidableEq, Repr

/-- A Python (unicode) string modelled as its list of characters. -/
abbrev PyStr := List Char

/-- ASCII whitespace recognised when int() strips its argument. -/
def isSpaceCh (c : Char) : Bool := c = ' ' || c = '\t' || c = '\n' || c = '\r'

/-- Strip leading and trailing whitespace, as int() does before parsing. -/
def pyTrim (l : PyStr) : PyStr :=
  ((l.dropWhile isSpaceCh).reverse.dropWhile isSpaceCh).reverse

/-- Numeric value of a list of decimal digit characters. -/
def digitsToNat (l : List Char) : Nat :=
  l.foldl (fun a c => a * 10 + (c.toNat - 48)) 0

/-- Parse a nonempty all-digit character list, else fail. -/
def pyNat (l : PyStr) : Option Nat :=
  if l ≠ [] ∧ l.all Char.isDigit then some (digitsToNat l) else none

/-- Sign handling of int(): an optional single leading + or - before digits. -/
def pyIntCore (l : PyStr) : Option Int :=
  match l with
  | [] => none
  | c :: rest =>
    if c = '+' then (pyNat rest).map (fun n => (n : Int))
    else if c = '-' then (pyNat rest).map (fun n => -(n : Int))
    else (pyNat (c :: rest)).map (fun n => (n : Int))

/-- Model of Python int(s): whitespace-stripped optional sign plus
decimal digits; any other shape raises ValueError (None here). -/
def pyInt (s : PyStr) : Option Int := pyIntCore (pyTrim s)

/-- Fuel-bounded accumulator loop producing the decimal digits of a
natural number; the fuel never runs out when it exceeds the number. -/
def natCharsAux : Nat → Nat → List Char → List Char
  | 0, _, acc => acc
  | fuel + 1, n, acc =>
    if n < 10 then Char.ofNat (48 + n) :: acc
    else natCharsAux fuel (n / 10) (Char.ofNat (48 + n % 10) :: acc)

/-- Decimal digit characters of a natural number, most significant first:
the body of str(n) for a nonnegative integer. -/
def natToChars (n : Nat) : List Char := natCharsAux (n + 1) n []

/-- Model of Python str(i) for an integer. -/
def pyStrOfInt (i : Int) : PyStr :=
  if i < 0 then '-' :: natToChars i.natAbs else natToChars i.natAbs

/-- Model of Python s.split("-"): split on every dash, keeping empty parts. -/
def pySplitDash : PyStr → List PyStr
  | [] => [[]]
  | c :: rest =>
    if c = '-' then [] :: pySplitDash rest
    else
      match pySplitDash rest with
      | [] => [[c]]
      | p :: ps => (c :: p) :: ps

/-- A datastore path-element identifier: either a numeric id (elem.id())
or a string name (elem.name()). -/
inductive PathId where
  | num (n : Int)
  | name (s : PyStr)
deriving DecidableEq, Repr

/-- One (kind, identifier) pair of a key path. -/
structure PathElem where
  kind : PyStr
  ident : PathId
deriving DecidableEq, Repr

/-- A datastore key: the ancestor chain of (kind, identifier) pairs. -/
abbrev DsKey := List PathElem

/-- One element of the stored mongo key: the "kind-identifier" token built
by the protobuf branch of the key wrapper constructor. -/
def encodeElem (e : PathElem) : PyStr :=
  e.kind ++ '-' :: (match e.ident with
                    | .num n => pyStrOfInt n
                    | .name s => s)

/-- Storage encoding of a key: the list stored under the dskey field of
the document id (to_mongo_key). -/
def encodeKey (k : DsKey) : List PyStr := k.map encodeElem

/-- Decode one stored token back to a path element, as the dict branch of
the key wrapper constructor does: split on "-" into exactly two parts
(any other arity raises ValueError on unpacking), then try int() on the
identifier part, keeping the string on failure. -/
def decodeElem (s : PyStr) : Except PyErr PathElem :=
  match pySplitDash s with
  | [t, i] =>
    .ok { kind := t,
          ident := match pyInt i with
                   | some n => .num n
                   | none => .name i }
  | _ => .error .valueError

/-- Decode a stored mongo key list back to a datastore key. -/
def decodeKey (l : List PyStr) : Except PyErr DsKey := l.mapM decodeElem

/-! ## Value codec (the document wrapper's encoder and decoder) -/

/-- A Python 2 byte string: a list of byte values. -/
abbrev Bytes := List Nat

/-- A UTF-8 continuation byte. -/
def contByte (b : Nat) : Bool := 128 ≤ b && b < 192

/-- One-byte-at-a-time UTF-8 validation automaton.  The state is none
when a lead byte is expected and some (k, lo, hi) when k continuation
bytes are still expected, the next of which must lie in [lo, hi]
(tightened after the lead byte to reject overlong and out-of-range
forms). -/
def utf8Step : Option (Nat × Nat × Nat) → Bytes → Bool
  | st, [] => st.isNone
  | none, b :: rest =>
    if b < 128 then utf8Step none rest
    else if b < 194 then false
    else if b < 224 then utf8Step (some (1, 128, 191)) rest
    else if b = 224 then utf8Step (some (2, 160, 191)) rest
    else if b < 240 then utf8Step (some (2, 128, 191)) rest
    else if b = 240 then utf8Step (some (3, 144, 191)) rest
    else if b < 244 then utf8Step (some (3, 128, 191)) rest
    else if b = 244 then utf8Step (some (3, 128, 143)) rest
    else false
  | some (k, lo, hi), b :: rest =>
    if lo ≤ b ∧ b ≤ hi then
      utf8Step (if k ≤ 1 then none else some (k - 1, 128, 191)) rest
    else false

/-- Whether a byte string decodes under the utf-8 codec, i.e. whether
s.decode of the byte string succeeds (standard UTF-8 ranges, overlong
forms rejected). -/
def utf8Valid (s : Bytes) : Bool := utf8Step none s

/-- Byte values of an ASCII Lean string (used for literal markers). -/
def asciiBytes (s : String) : Bytes := s.data.map Char.toNat

/-- UTF-8 bytes of one code point. -/
def utf8Enc (n : Nat) : Bytes :=
  if n < 128 then [n]
  else if n < 2048 then [192 + n / 64, 128 + n % 64]
  else if n < 65536 then [224 + n / 4096, 128 + n / 64 % 64, 128 + n % 64]
  else [240 + n / 262144, 128 + n / 4096 % 64, 128 + n / 64 % 64, 128 + n % 64]

/-- UTF-8 encoding of a unicode string (u.encode in to_utf8). -/
def utf8OfStr (s : String) : Bytes := s.data.flatMap (fun c => utf8Enc c.toNat)

/-- Join byte-string parts with the "~" separator ("~".join in Python). -/
def joinTilde : List Bytes → Bytes
  | [] => []
  | [p] => p
  | p :: rest => p ++ 126 :: joinTilde rest

/-- The visibly-marked escape of a byte string that is not valid UTF-8:
the $UTF8$ marker followed by the decimal ordinal of every byte,
joined with "~". -/
def markerBytes (s : Bytes) : Bytes :=
  asciiBytes "$UTF8$" ++ joinTilde (s.map (fun b => asciiBytes (String.mk (natToChars b))))

/-- Whether a byte string starts with the $UTF8$ marker (startswith). -/
def hasMarker (s : Bytes) : Bool := (asciiBytes "$UTF8$").isPrefixOf s

/-- Datastore-side property values, the closed variant set the value
codec dispatches on.  Doubles and datetimes are carried as opaque
payloads the codec never inspects: a float by its bit pattern, a
datetime by (the timestamp denoted by) its ISO-8601 rendering, since
parse_isoformat inverts isoformat. -/
inductive PyVal where
  | pynone
  | pybool (b : Bool)
  | pyint (n : Int)
  | pyfloat (bits : Int)
  | pystr (s : Bytes)
  | pyunicode (s : String)
  | text (s : String)
  | blob (b : Bytes)
  | dt (iso : String)
  | geo (lat lon : Int)
  | keyv (k : DsKey)
  | blobkey (s : String)
  | localEnt (b : Bytes)
  | user (email fedId fedProv : Option String)
  | plist (l : List PyVal)

/-- Mongo-side stored values.  A Python dict of shape with a "t" key is
the tagged constructor; the geo/user/key payload dicts and bson Binary
get their own constructors. -/
inductive MVal where
  | mnull
  | mbool (b : Bool)
  | mint (n : Int)
  | mfloat (bits : Int)
  | mbytes (s : Bytes)
  | mstr (s : String)
  | mbin (b : Bytes)
  | mkeydoc (k : List PyStr)
  | mgeo (x y : Int)
  | muser (email fedId fedProv : Option String)
  | tagged (t : String) (v : MVal)
  | marr (l : List MVal)

mutual

/-- Structural equality on stored values (Python ==). -/
def MVal.beq : MVal → MVal → Bool
  | .mnull, .mnull => true
  | .mbool a, .mbool b => a == b
  | .mint a, .mint b => a == b
  | .mfloat a, .mfloat b => a == b
  | .mbytes a, .mbytes b => a == b
  | .mstr a, .mstr b => a == b
  | .mbin a, .mbin b => a == b
  | .mkeydoc a, .mkeydoc b => a == b
  | .mgeo a b, .mgeo c d => a == c && b == d
  | .muser a b c, .muser d e f => a == d && b == e && c == f
  | .tagged t v, .tagged u w => t == u && MVal.beq v w
  | .marr a, .marr b => MVal.beqList a b
  | _, _ => false

/-- Elementwise equality of stored value lists. -/
def MVal.beqList : List MVal → List MVal → Bool
  | [], [] => true
  | x :: xs, y :: ys => MVal.beq x y && MVal.beqList xs ys
  | _, _ => false

end

instance : BEq MVal := ⟨MVal.beq⟩

/-- Model of to_utf8: unicode is encoded to UTF-8 bytes; a byte string
is kept if it decodes as UTF-8 and otherwise replaced by the marked
escape form. -/
def toUtf8Str (s : Bytes) : Bytes :=
  if utf8Valid s then s else markerBytes s

/-- The user encoder: a tagged map holding whichever of the three
identity fields are non-empty. -/
def encodeUser (email fedId fedProv : Option String) : MVal :=
  .tagged "user" (.muser email fedId fedProv)

mutual

/-- The value encoder (_encode_value): class-keyed dispatch into tagged
pairs for non-primitive types, element-wise encoding for lists, UTF-8
escaping for strings, identity otherwise. -/
def encodeValue : PyVal → MVal
  | .pynone => .mnull
  | .pybool b => .mbool b
  | .pyint n => .mint n
  | .pyfloat f => .mfloat f
  | .pystr s => .mbytes (toUtf8Str s)
  | .pyunicode s => .mbytes (utf8OfStr s)
  | .text s => .tagged "text" (.mstr s)
  | .blob b => .tagged "blob" (.mbin b)
  | .dt iso => .tagged "datetime" (.mstr iso)
  | .geo lat lon => .tagged "geo" (.mgeo lon lat)
  | .keyv k => .tagged "key" (.mkeydoc (encodeKey k))
  | .blobkey s => .tagged "blobkey" (.mstr s)
  | .localEnt b => .tagged "local" (.mbin b)
  | .user e fid fprov => encodeUser e fid fprov
  | .plist l => .marr (encodeValList l)

/-- Element-wise encoding of a list value. -/
def encodeValList : List PyVal → List MVal
  | [] => []
  | x :: xs => encodeValue x :: encodeValList xs

end

/-- The decoder dispatch table (DECODER) applied to a tag and its
payload; an unknown tag raises KeyError, a payload whose shape the
table entry cannot consume raises TypeError. -/
def decodeTagged (t : String) (v : MVal) : Except PyErr PyVal :=
  if t = "datetime" then
    match v with
    | .mstr s => .ok (.dt s)
    | _ => .error .typeError
  else if t = "geo" then
    match v with
    | .mgeo x y => .ok (.geo y x)
    | _ => .error .typeError
  else if t = "key" then
    match v with
    | .mkeydoc k => (decodeKey k).map .keyv
    | _ => .error .typeError
  else if t = "blobkey" then
    match v with
    | .mstr s => .ok (.blobkey s)
    | _ => .error .typeError
  else if t = "blob" then
    match v with
    | .mbin b => .ok (.blob b)
    | _ => .error .typeError
  else if t = "text" then
    match v with
    | .mstr s => .ok (.text s)
    | _ => .error .typeError
  else if t = "local" then
    match v with
    | .mbin b => .ok (.localEnt b)
    | _ => .error .typeError
  else if t = "user" then
    match v with
    | .muser e fid fprov => .ok (.user e fid fprov)
    | _ => .error .typeError
  else .error .keyError

mutual

/-- The value decoder (_decode_value): tagged dicts go through the
dispatch table, other dicts raise KeyError on the missing "t" key,
lists decode element-wise, and a byte string carrying the $UTF8$
marker enters from_utf8 — whose body references the unassigned name
pp and therefore raises NameError. -/
def decodeValue : MVal → Except PyErr PyVal
  | .mnull => .ok .pynone
  | .mbool b => .ok (.pybool b)
  | .mint n => .ok (.pyint n)
  | .mfloat f => .ok (.pyfloat f)
  | .mstr s => .ok (.pyunicode s)
  | .mbytes s =>
    if hasMarker s then .error (.nameError "pp") else .ok (.pystr s)
  | .mbin b =>
    if hasMarker b then .error (.nameError "pp") else .ok (.pystr b)
  | .mkeydoc _ => .error .keyError
  | .mgeo _ _ => .error .keyError
  | .muser _ _ _ => .error .keyError
  | .tagged t v => decodeTagged t v
  | .marr l => decodeList l

/-- Element-wise decoding of a stored list. -/
def decodeList : List MVal → Except PyErr PyVal
  | [] => .ok (.plist [])
  | x :: xs => do
    let v ← decodeValue x
    let rest ← decodeList xs
    match rest with
    | .plist l => .ok (.plist (v :: l))
    | _ => .error .typeError

end

/-! ## Query translation: filters, ancestor constraint, ordering -/

/-- The structured-property delimiter substituted for dots in field
names. -/
def structDelim : String := "#!#"

/-- Replacement of every dot by the three-character delimiter
(s.replace of the source). -/
def replDots : List Char → List Char
  | [] => []
  | c :: rest =>
    if c = '.' then '#' :: '!' :: '#' :: replDots rest
    else c :: replDots rest

/-- Property-name translation performed by the filter and order
builders: the reserved key name is first replaced by the id path, then
every dot becomes the delimiter (note that this also mangles the dots
of the id path itself). -/
def mongoProp (s : String) : String :=
  String.mk (replDots (if s = "__key__" then "_id.dskey" else s).data)

/-- A key of the mongo filter document.  The builders produce either a
plain (dot-free) field name, the derived type-tag path name.t, or the
literal id path set by the ancestor handler. -/
inductive FKey where
  | field (s : String)
  | tagPath (s : String)
  | idPath
deriving DecidableEq, Repr

/-- Mongo comparison operators the stub emits. -/
inductive MOp where
  | lt
  | lte
  | gt
  | gte
deriving DecidableEq, Repr

/-- One entry of a mongo operator document, keyed by the operator. -/
inductive MAtom where
  | cmp (op : MOp) (v : MVal)
  | exs (b : Bool)
  | nin (l : List String)
  | allOf (l : List String)

/-- A condition attached to one filter key: a bare value (equality), an
operator document, or an equality dict that the order builder mutated
by assigning an exists entry into it (a tagged filter value is a plain
dict, so the assignment succeeds and corrupts the literal; the result
matches no stored value, since no encoded value carries such a key). -/
inductive MCond where
  | val (v : MVal)
  | odict (l : List MAtom)
  | corruptEq (v : MVal)

/-- Dictionary lookup in an association-list model of a Python dict. -/
def dGet (l : List (FKey × MCond)) (k : FKey) : Option MCond :=
  (l.find? (fun kc => kc.1 = k)).map (fun kc => kc.2)

/-- Dictionary membership. -/
def dMem (l : List (FKey × MCond)) (k : FKey) : Bool := (dGet l k).isSome

/-- Dictionary assignment: replace in place, or append a new key. -/
def dSet (l : List (FKey × MCond)) (k : FKey) (c : MCond) : List (FKey × MCond) :=
  if dMem l k then l.map (fun kc => if kc.1 = k then (k, c) else kc)
  else l ++ [(k, c)]

/-- Dictionary deletion. -/
def dDel (l : List (FKey × MCond)) (k : FKey) : List (FKey × MCond) :=
  l.filter (fun kc => ¬ kc.1 = k)

/-- The mongo filter document under construction: ordinary entries plus
the optional list stored under the reserved conjunction key. -/
structure Filters where
  entries : List (FKey × MCond)
  andL : Option (List (FKey × MCond))

/-- The empty filter document. -/
def emptyFilters : Filters := { entries := [], andL := none }

/-- A stored entity document: its id (the dskey token list, as strings)
and its encoded fields. -/
structure MDoc where
  id : List String
  fields : List (String × MVal)

/-- Field lookup in a stored document. -/
def fGet (l : List (String × MVal)) (k : String) : Option MVal :=
  (l.find? (fun kv => kv.1 = k)).map (fun kv => kv.2)

/-- Type tags of the subdocuments among a stored list value: what the
dotted path name.t resolves to element-wise. -/
def tagsOf (l : List MVal) : List MVal :=
  l.filterMap (fun v => match v with
                        | .tagged t _ => some (MVal.mstr t)
                        | _ => none)

/-- Resolution of a filter key against a document, mongo style: a plain
field is looked up directly; the name.t path resolves to the tag of a
tagged field value, or to the list of tags of subdocuments inside a
stored list (missing when there are none); the id path resolves to the
dskey token list. -/
def fieldView (d : MDoc) : FKey → Option MVal
  | .field s => fGet d.fields s
  | .tagPath s =>
    match fGet d.fields s with
    | some (.tagged t _) => some (.mstr t)
    | some (.marr l) =>
      match tagsOf l with
      | [] => none
      | ts => some (.marr ts)
    | _ => none
  | .idPath => some (.marr (d.id.map MVal.mstr))

/-- Mongo scalar comparison: comparisons only ever match within the
same type bracket; the stub compares numbers and strings. -/
def mcmp (op : MOp) (x w : MVal) : Bool :=
  match x, w with
  | .mint a, .mint b =>
    match op with
    | .lt => a < b
    | .lte => a ≤ b
    | .gt => a > b
    | .gte => a ≥ b
  | .mstr a, .mstr b =>
    match op with
    | .lt => decide (a < b)
    | .lte => decide (a ≤ b)
    | .gt => decide (b < a)
    | .gte => decide (b ≤ a)
  | _, _ => false

/-- Matching of one operator-document entry against a resolved field
value: comparisons match any element of an array field; exists tests
presence; not-in is satisfied by a missing field and by arrays none of
whose elements are listed; the containment operator requires every
listed element to be present in the array. -/
def matchAtom (mv : Option MVal) : MAtom → Bool
  | .cmp op w =>
    match mv with
    | some (.marr xs) => xs.any (fun x => mcmp op x w)
    | some v => mcmp op v w
    | none => false
  | .exs b => mv.isSome == b
  | .nin l =>
    match mv with
    | none => true
    | some (.marr xs) =>
      xs.all (fun x => match x with
                       | .mstr s => !(l.contains s)
                       | _ => true)
    | some (.mstr s) => !(l.contains s)
    | some _ => true
  | .allOf l =>
    match mv with
    | some (.marr xs) => l.all (fun s => xs.contains (MVal.mstr s))
    | some v => l.all (fun s => MVal.mstr s == v)
    | none => l.isEmpty

/-- Matching of a condition against a resolved field value: a bare
value matches by equality (against the field or any array element; a
null operand also matches a missing field), an operator document
requires all its entries, and a corrupted equality dict matches
nothing. -/
def matchCond (mv : Option MVal) : MCond → Bool
  | .val w =>
    match mv with
    | none => w == MVal.mnull
    | some (.marr xs) => MVal.marr xs == w || xs.any (fun x => x == w)
    | some v => v == w
  | .odict l => l.all (matchAtom mv)
  | .corruptEq _ => false

/-- Whether a document satisfies the whole filter document, including
the conjunction list when present. -/
def matchFilters (F : Filters) (d : MDoc) : Bool :=
  F.entries.all (fun kc => matchCond (fieldView d kc.1) kc.2) &&
    (match F.andL with
     | none => true
     | some l => l.all (fun kc => matchCond (fieldView d kc.1) kc.2))

/-- Datastore query filter operators. -/
inductive DsOp where
  | eq
  | lt
  | lte
  | gt
  | gte
deriving DecidableEq, Repr

/-- One filter of a datastore query: property name, operator, operand. -/
structure DsFilter where
  prop : String
  op : DsOp
  pval : PyVal

/-- The condition a single query filter translates to: equality passes
the encoded operand through bare, an inequality becomes a one-entry
operator document. -/
def condOf (f : DsFilter) : MCond :=
  match f.op with
  | .eq => .val (encodeValue f.pval)
  | .lt => .odict [.cmp .lt (encodeValue f.pval)]
  | .lte => .odict [.cmp .lte (encodeValue f.pval)]
  | .gt => .odict [.cmp .gt (encodeValue f.pval)]
  | .gte => .odict [.cmp .gte (encodeValue f.pval)]

/-- One step of the filter builder (_get_filters loop body): a repeated
property moves both conditions into a fresh conjunction list —
overwriting any conjunction list already present — while a new
property is appended to the conjunction list if one exists and stored
as a plain entry otherwise. -/
def addFilter (F : Filters) (f : DsFilter) : Filters :=
  let k := FKey.field (mongoProp f.prop)
  let c := condOf f
  match dGet F.entries k with
  | some v1 => { entries := dDel F.entries k, andL := some [(k, v1), (k, c)] }
  | none =>
    match F.andL with
    | some l => { F with andL := some (l ++ [(k, c)]) }
    | none => { F with entries := dSet F.entries k c }

/-- The filter builder (_get_filters): fold the query's filters into a
mongo filter document. -/
def getFilters (fs : List DsFilter) : Filters := fs.foldl addFilter emptyFilters

/-- The ancestor handler (_ancestor_query): assign a containment
condition on the id path, listing every token of the ancestor's mongo
key. -/
def addAncestor (F : Filters) (anc : DsKey) : Filters :=
  { F with
    entries := dSet F.entries .idPath
      (.odict [.allOf ((encodeKey anc).map (fun l => String.mk l))]) }

/-- The unorderable type tags excluded from ordered results. -/
def unorderableTags : List String := ["blob", "text", "local"]

/-- Assignment of the exists entry into an existing operator document
(dict assignment keyed by the operator name). -/
def odictSetExs (l : List MAtom) : List MAtom :=
  if l.any (fun a => match a with | .exs _ => true | _ => false) then
    l.map (fun a => match a with | .exs _ => MAtom.exs true | _ => a)
  else l ++ [.exs true]

/-- One step of the order builder (_ordering loop body): record the
sort key, then force an exists filter on the ordered field — mutating
an existing condition when it is a dict (an operator document or a
tagged equality literal, which the assignment corrupts) and leaving a
scalar equality condition untouched (TypeError is swallowed) — and
finally exclude unorderable type tags through the derived tag path. -/
def addOrder (F : Filters) (sorts : List (FKey × Bool)) (o : String × Bool) :
    Filters × List (FKey × Bool) :=
  let key := mongoProp o.1
  let fk := FKey.field key
  let sorts := sorts ++ [(fk, o.2)]
  let F :=
    match dGet F.entries fk with
    | some (.odict l) => { F with entries := dSet F.entries fk (.odict (odictSetExs l)) }
    | some (.val v) =>
      match v with
      | .tagged _ _ => { F with entries := dSet F.entries fk (.corruptEq v) }
      | .mkeydoc _ => { F with entries := dSet F.entries fk (.corruptEq v) }
      | .mgeo _ _ => { F with entries := dSet F.entries fk (.corruptEq v) }
      | .muser _ _ _ => { F with entries := dSet F.entries fk (.corruptEq v) }
      | _ => F
    | some (.corruptEq v) => { F with entries := dSet F.entries fk (.corruptEq v) }
    | none => { F with entries := dSet F.entries fk (.odict [.exs true]) }
  ({ F with
     entries := dSet F.entries (FKey.tagPath key) (.odict [.nin unorderableTags]) },
   sorts)

/-- The order builder (_ordering): fold every requested order into the
filter document and the sort specification. -/
def applyOrdering (F : Filters) (orders : List (String × Bool)) :
    Filters × List (FKey × Bool) :=
  orders.foldl (fun acc o => addOrder acc.1 acc.2 o) (F, [])

/-! ## Cursor iteration: offset emulation -/

/-- The hard cap on emulated offsets in the skip accounting. -/
def offsetCap : Nat := 10000

/-- The sentinel offset treated as a count probe and reset to zero
before being passed to the storage skip. -/
def offsetSentinel : Nat := 2147483647

/-- Iteration state of the cursor for a query without projection: the
requested offset, the number of skips accounted so far, and the
documents the storage cursor will still yield (its skip already
applied). -/
structure OffCursor where
  offset : Nat
  skipped : Nat
  docs : List MDoc

/-- Initial cursor state for offset n over the matching documents in
storage order: the offset method passes n to the storage skip, except
that the sentinel value is reset to zero first. -/
def initCursor (n : Nat) (ms : List MDoc) : OffCursor :=
  { offset := n,
    skipped := 0,
    docs := ms.drop (if offsetSentinel ≤ n then 0 else n) }

/-- The skip accounting step (_next_offset): above the cap nothing is
accounted; below it, the first offset pulls are accounted one by one. -/
def nextOffset (c : OffCursor) : Bool × OffCursor :=
  if offsetCap < c.offset then (false, c)
  else if c.skipped < c.offset then (true, { c with skipped := c.skipped + 1 })
  else (false, c)

/-- One result the cursor hands to its consumer: either the innocuous
placeholder entity used for skip accounting, or a real document. -/
inductive CRes where
  | dummy
  | real (d : MDoc)

/-- One pull on the cursor (next, projection paths not taken): a
placeholder while skips are being accounted, then the storage cursor's
documents, then end of iteration. -/
def cnext (c : OffCursor) : Option (CRes × OffCursor) :=
  let s := nextOffset c
  if s.1 then some (.dummy, s.2)
  else
    match s.2.docs with
    | [] => none
    | d :: rest => some (.real d, { s.2 with docs := rest })

/-- Pull on the cursor until end of iteration, fuel-bounded. -/
def drain : Nat → OffCursor → List CRes × Nat
  | 0, c => ([], c.skipped)
  | fuel + 1, c =>
    match cnext c with
    | none => ([], c.skipped)
    | some (r, c') =>
      let rest := drain fuel c'
      (r :: rest.1, rest.2)

/-- Everything a cursor for offset n over the given matching documents
yields until exhaustion, with the final skip count. -/
def runCursor (n : Nat) (ms : List MDoc) : List CRes × Nat :=
  drain (n + ms.length + 1) (initCursor n ms)

/-! ## Projection splitting -/

/-- Filtering functions derived from a condition for element-level
filtering of a projected repeated property (_get_filter_fnc): the
first entry of an operator document yields a comparison closure when
its key is a known comparison operator and nothing otherwise; the
equality branch builds a closure over the enclosing function's local
spec, which is only assigned in the other branch, so calling that
closure raises NameError. -/
inductive FilterFn where
  | cmpF (op : MOp) (v : MVal)
  | brokenEq

/-- Apply a filtering function to one element. -/
def applyFilterFn : FilterFn → MVal → Except PyErr Bool
  | .cmpF op v, x => .ok (mcmp op x v)
  | .brokenEq, _ => .error (.nameError "spec")

/-- Build the filtering function for one condition (_get_filter_fnc). -/
def getFilterFnc : MCond → Option FilterFn
  | .odict l =>
    match l with
    | .cmp op v :: _ => some (.cmpF op v)
    | _ => none
  | .val _ => some .brokenEq
  | .corruptEq _ => some .brokenEq

/-- Deduplication performed by set(values); iteration order is modelled
as first-occurrence order (the claims settled here do not depend on
the hash order of the interpreter). -/
def pySet (l : List MVal) : List MVal := l.eraseDups

/-- Conjunction of all filtering functions on one element, evaluating
every function (the comprehension inside all() does). -/
def evalFns : List FilterFn → MVal → Except PyErr Bool
  | [], _ => .ok true
  | f :: rest, v => do
    let b ← applyFilterFn f v
    let c ← evalFns rest v
    pure (b && c)

/-- Keep the elements on which every function returns true. -/
def runFns (fns : List FilterFn) : List MVal → Except PyErr (List MVal)
  | [] => .ok []
  | v :: rest => do
    let b ← evalFns fns v
    let tail ← runFns fns rest
    pure (if b then v :: tail else tail)

/-- Element filtering for a projected repeated property
(_filter_projected_values): collect the function for a direct
condition on the property, otherwise the functions for its entries in
the conjunction list; with no usable function the deduplicated values
pass through, else each value must satisfy every function. -/
def filterProjectedValues (F : Filters) (p : String) (values : List MVal) :
    Except PyErr (List MVal) :=
  let fns1 : List (Option FilterFn) :=
    match dGet F.entries (.field p) with
    | some c => [getFilterFnc c]
    | none => []
  let fns2 : List (Option FilterFn) :=
    if fns1.isEmpty then
      match F.andL with
      | some l => (l.filter (fun kc => kc.1 = FKey.field p)).map (fun kc => getFilterFnc kc.2)
      | none => []
    else []
  let fns := (fns1 ++ fns2).filterMap id
  if fns.isEmpty then .ok (pySet values)
  else runFns fns (pySet values)

/-- Field assignment on a stored document. -/
def fSet (d : MDoc) (k : String) (v : MVal) : MDoc :=
  { d with
    fields :=
      if (fGet d.fields k).isSome then
        d.fields.map (fun kv => if kv.1 = k then (k, v) else kv)
      else d.fields ++ [(k, v)] }

/-- Projection-splitting state of the cursor: the projected mongo
field names, the built filter document, the buffer of pending partial
documents, and a count of warnings emitted so far. -/
structure ProjCursor where
  projected : List String
  filters : Filters
  buffer : List MDoc
  warns : Nat

/-- The projected properties of a document that hold list values. -/
def repeatedProjected (projected : List String) (d : MDoc) : List (String × List MVal) :=
  (d.fields.map (fun kv => kv.1)).filter (fun a => projected.contains a)
    |>.filterMap (fun a => match fGet d.fields a with
                           | some (.marr l) => some (a, l)
                           | _ => none)

/-- The splitting step (_split_projected): no projected repeated
property means no split; more than one means a warning and no split;
exactly one explodes the document into one partial document per
filtered element, each prepended to the buffer. -/
def splitProjected (c : ProjCursor) (e : MDoc) : Except PyErr (Bool × ProjCursor) :=
  match repeatedProjected c.projected e with
  | [] => .ok (false, c)
  | [(p, vs)] => do
    let fv ← filterProjectedValues c.filters p vs
    .ok (true,
         { c with buffer := fv.foldl (fun buf v => fSet e p (.marr [v]) :: buf) c.buffer })
  | _ => .ok (false, { c with warns := c.warns + 1 })

/-- Field selection applied before returning an entity of a projection
query (_prepare_properties delegating to the SDK helper LoadEntity, an
external collaborator: it keeps exactly the projected properties). -/
def prepareProps (projected : List String) (d : MDoc) : MDoc :=
  { d with fields := d.fields.filter (fun kv => projected.contains kv.1) }

/-- The projection path of next once the storage cursor has yielded
document e, with no offset pending and an empty buffer: split the
document and pop the last buffered partial, or hand the document
through unsplit (a split that buffered nothing dies with IndexError on
the pop). -/
def nextOnDoc (c : ProjCursor) (e : MDoc) : Except PyErr (MDoc × ProjCursor) := do
  let s ← splitProjected c e
  if s.1 then
    match s.2.buffer.getLast? with
    | some b => .ok (prepareProps c.projected b, { s.2 with buffer := s.2.buffer.dropLast })
    | none => .error .indexError
  else .ok (prepareProps c.projected e, s.2)

/-! ## Schema manager -/

/-- One schema record: the collection identifier, the kind, and the
property-to-type-tag map computed from a stored entity. -/
structure Schema where
  sid : String
  kind : String
  props : List (String × String)
deriving DecidableEq, Repr

/-- Schema-manager state: the persisted records of the reserved schema
collection (keyed by collection identifier), the in-memory cache, and
a count of persistent save calls. -/
structure SchemaMgr where
  stored : List (String × Schema)
  cache : List (String × Schema)
  writes : Nat
deriving Repr

/-- Record lookup in a cache keyed by collection identifier. -/
def sGet (l : List (String × Schema)) (k : String) : Option Schema :=
  (l.find? (fun kv => kv.1 = k)).map (fun kv => kv.2)

/-- Record assignment keyed by collection identifier. -/
def sSet (l : List (String × Schema)) (k : String) (s : Schema) : List (String × Schema) :=
  if (sGet l k).isSome then l.map (fun kv => if kv.1 = k then (k, s) else kv)
  else l ++ [(k, s)]

/-- update_if_changed: persist and cache a record for a collection not
yet cached, or whose cached record differs; touch nothing otherwise. -/
def updateIfChanged (m : SchemaMgr) (s : Schema) : SchemaMgr :=
  match sGet m.cache s.sid with
  | none =>
    { stored := sSet m.stored s.sid s,
      cache := sSet m.cache s.sid s,
      writes := m.writes + 1 }
  | some old =>
    if old ≠ s then
      { stored := sSet m.stored s.sid s,
        cache := sSet m.cache s.sid s,
        writes := m.writes + 1 }
    else m

/-! ## The datastore: put and get -/

/-- An entity as handed to put: its key and its properties. -/
structure Entity where
  key : DsKey
  props : List (String × PyVal)

/-- Collection name of a key: the lower-cased root kind. -/
def collName (k : DsKey) : String :=
  match k with
  | [] => ""
  | e :: _ => (String.mk e.kind).toLower

/-- Kind of a key: the kind of its last element. -/
def kindName (k : DsKey) : String :=
  match k.getLast? with
  | some e => String.mk e.kind
  | none => ""

/-- Stored mongo key of an entity key: the dskey token list. -/
def mongoKeyOf (k : DsKey) : List String :=
  (encodeKey k).map (fun l => String.mk l)

/-- The type tag recorded in a schema record for one value
(the class name of the datastore value, with a list tagged by the
class of its first element; empty repeated properties are never stored
by the SDK, so the empty-list tag is left blank where the source would
raise IndexError). -/
def typeNameScalar : PyVal → String
  | .pynone => "NoneType"
  | .pybool _ => "bool"
  | .pyint _ => "long"
  | .pyfloat _ => "float"
  | .pystr _ => "str"
  | .pyunicode _ => "unicode"
  | .text _ => "Text"
  | .blob _ => "Blob"
  | .dt _ => "datetime"
  | .geo _ _ => "GeoPt"
  | .keyv _ => "Key"
  | .blobkey _ => "BlobKey"
  | .localEnt _ => "EmbeddedEntity"
  | .user _ _ _ => "User"
  | .plist _ => "list"

/-- The type tag of a value, repeated properties tagged
"list:elementtag". -/
def typeName : PyVal → String
  | .plist l =>
    "list:" ++ (match l.head? with
                | some v => typeNameScalar v
                | none => "")
  | v => typeNameScalar v

/-- Dot-to-delimiter translation of a property name as stored. -/
def fieldName (s : String) : String := String.mk (replDots s.data)

/-- The schema record of an entity (get_schema). -/
def getSchema (e : Entity) : Schema :=
  { sid := collName e.key,
    kind := kindName e.key,
    props := e.props.map (fun kv => (fieldName kv.1, typeName kv.2)) }

/-- The stored document of an entity (_parse_pb followed by to_mongo):
the mongo key as id, each property encoded under its translated
name. -/
def toMongoDoc (e : Entity) : MDoc :=
  { id := mongoKeyOf e.key,
    fields := e.props.map (fun kv => (fieldName kv.1, encodeValue kv.2)) }

/-- The datastore state: collections of documents by name, plus the
schema manager. -/
structure Datastore where
  colls : List (String × List MDoc)
  schema : SchemaMgr

/-- Documents of one collection. -/
def collDocs (ds : Datastore) (c : String) : List MDoc :=
  match (ds.colls.find? (fun kv => kv.1 = c)).map (fun kv => kv.2) with
  | some l => l
  | none => []

/-- Upsert a document into a collection by id (collection save). -/
def collSave (ds : Datastore) (c : String) (d : MDoc) : Datastore :=
  let docs := collDocs ds c
  let docs' :=
    if docs.any (fun x => x.id == d.id) then
      docs.map (fun x => if x.id == d.id then d else x)
    else docs ++ [d]
  { ds with
    colls :=
      if (ds.colls.find? (fun kv => kv.1 = c)).isSome then
        ds.colls.map (fun kv => if kv.1 = c then (c, docs') else kv)
      else ds.colls ++ [(c, docs')] }

/-- put: for each entity, update the schema record, then upsert the
document into its key's collection; the entities' keys are returned in
input order. -/
def mongoPut (ds : Datastore) (es : List Entity) : Datastore × List DsKey :=
  es.foldl
    (fun acc e =>
      let ds1 := { acc.1 with schema := updateIfChanged acc.1.schema (getSchema e) }
      let ds2 := collSave ds1 (collName e.key) (toMongoDoc e)
      (ds2, acc.2 ++ [e.key]))
    (ds, [])

/-- The find issued by get: all documents of the key's collection whose
dskey list contains every token of the requested key (a containment
filter, like the ancestor query). -/
def getFind (ds : Datastore) (k : DsKey) : List MDoc :=
  (collDocs ds (collName k)).filter
    (fun d => (mongoKeyOf k).all (fun s => d.id.contains s))

/-- Truthiness of the object the driver's find returns: a cursor object
defines no length or boolean conversion, so it is always truthy,
whether or not it has results. -/
def cursorTruthy (_ : List MDoc) : Bool := true

/-- get: build the key, run find, return absent for a falsy result;
otherwise the body applies the document wrapper to the unassigned name
d (the find result was bound to doc), raising NameError. -/
def mongoGet (ds : Datastore) (k : DsKey) : Except PyErr (Option Entity) :=
  let found := getFind ds k
  if cursorTruthy found then .error (.nameError "d")
  else .ok none

/-! ## Spec-side notions used in theorem statements -/

/-- An identifier the storage encoding can represent reversibly: a
nonnegative numeric id, or a name that contains no dash and does not
parse as an integer. -/
def goodId : PathId → Bool
  | .num n => decide (0 ≤ n)
  | .name s => !(s.contains '-') && (pyInt s).isNone

/-- A path element the storage encoding can represent reversibly. -/
def goodElem (e : PathElem) : Bool :=
  !(e.kind.contains '-') && goodId e.ident

/-- What one datastore filter, translated on its own, asserts of a
document: the claim-side meaning of the conjunction of a query's
filters. -/
def singleFilterMatch (f : DsFilter) (d : MDoc) : Bool :=
  matchCond (fieldView d (.field (mongoProp f.prop))) (condOf f)

/-- Whether a document carries the given stored field at all. -/
def hasField (d : MDoc) (s : String) : Bool := (fGet d.fields s).isSome

/-- Whether a stored field value is of an orderable type: scalar tags
outside the unorderable vocabulary, and lists none of whose tagged
elements carry an unorderable tag. -/
def valOrderable : MVal → Bool
  | .tagged t _ => !(unorderableTags.contains t)
  | .marr l =>
    l.all (fun v => match v with
                    | .tagged t _ => !(unorderableTags.contains t)
                    | _ => true)
  | _ => true

/-- Whether the given stored field of a document, if present, holds an
orderable value. -/
def orderableField (d : MDoc) (s : String) : Bool :=
  match fGet d.fields s with
  | some v => valOrderable v
  | none => true

/-! ## Concrete instances used by counterexamples and witnesses -/

/-- The multi-property filter list whose translation drops filters:
two inequality filters each on a and on b, interleaved. -/
def fsAB : List DsFilter :=
  [⟨"a", .gt, .pyint 0⟩, ⟨"b", .gt, .pyint 0⟩,
   ⟨"a", .gt, .pyint 1⟩, ⟨"b", .gt, .pyint 1⟩]

/-- A document violating both dropped a-filters while satisfying the
surviving b-filters. -/
def docAB : MDoc := ⟨["Q-1"], [("a", .mint 0), ("b", .mint 5)]⟩

/-- The specification's conjunction example: a greater than 20 and a
at most 60. -/
def fsRange : List DsFilter := [⟨"a", .gt, .pyint 20⟩, ⟨"a", .lte, .pyint 60⟩]

/-- An entity document with integer property a. -/
def intDoc (i : Nat) : MDoc := ⟨["Q-0"], [("a", .mint (i : Int))]⟩

/-- The ancestor key A/1 of the specification's example. -/
def ancA1 : DsKey := [⟨['A'], .num 1⟩]

/-- A kind-A entity at path A/2/A/1: its dskey list contains the token
of A/1 without A/1 being a path prefix. -/
def docA2A1 : MDoc := ⟨["A-2", "A-1"], []⟩

/-- The specification's ancestor scenario: entities at A/1, A/1/B/2,
A/1/B/2/C/3 and A/9. -/
def ancScenario : List MDoc :=
  [⟨["A-1"], []⟩, ⟨["A-1", "B-2"], []⟩, ⟨["A-1", "B-2", "C-3"], []⟩, ⟨["A-9"], []⟩]

/-- A document for the offset counterexample. -/
def docOff : MDoc := ⟨["Q-1"], []⟩

/-- The filter document of the query a less than 3. -/
def fLt3 : Filters := getFilters [⟨"a", .lt, .pyint 3⟩]

/-- The filter document of the query a equal to 2. -/
def fEq2 : Filters := getFilters [⟨"a", .eq, .pyint 2⟩]

/-- Projection cursor state projecting the repeated property a under
the filter a less than 3. -/
def curLt3 : ProjCursor := ⟨["a"], fLt3, [], 0⟩

/-- Projection cursor state projecting the repeated property a under
the filter a equal to 2. -/
def curEq2 : ProjCursor := ⟨["a"], fEq2, [], 0⟩

/-- The stored entity with a holding the list 1, 2, 3. -/
def docList123 : MDoc := ⟨["Q-1"], [("a", .marr [.mint 1, .mint 2, .mint 3])]⟩

/-- Projection cursor projecting the two properties a and b with no
filters. -/
def curTwoProj : ProjCursor := ⟨["a", "b"], emptyFilters, [], 0⟩

/-- A stored entity on which both projected properties are repeated. -/
def docTwoRep : MDoc := ⟨["Q-1"], [("a", .marr [.mint 1, .mint 2]), ("b", .marr [.mint 3])]⟩

/-- An equality filter on a whose operand encodes to a tagged document
(a datetime value). -/
def fEqDt : DsFilter := ⟨"a", .eq, .dt "2013-01-01T00:00:00"⟩

/-- The stored entity whose a holds exactly that datetime value:
present, of an orderable type, and equal to the filter operand. -/
def docDt : MDoc := ⟨["Q-1"], [("a", encodeValue (.dt "2013-01-01T00:00:00"))]⟩

/-! ## Helper lemmas: decimal digits and int() -/

theorem digit_not_space {c : Char} (h : c.isDigit = true) : isSpaceCh c = false := by
  unfold isSpaceCh
  by_cases h1 : c = ' '
  · subst h1; exact absurd h (by decide)
  by_cases h2 : c = '\t'
  · subst h2; exact absurd h (by decide)
  by_cases h3 : c = '\n'
  · subst h3; exact absurd h (by decide)
  by_cases h4 : c = '\r'
  · subst h4; exact absurd h (by decide)
  simp [h1, h2, h3, h4]

theorem dropWhile_nospace {l : List Char} (h : ∀ c ∈ l, isSpaceCh c = false) :
    l.dropWhile isSpaceCh = l := by
  cases l with
  | nil => rfl
  | cons a l => simp [List.dropWhile_cons, h a (List.mem_cons_self a l)]

theorem pyTrim_digits {l : List Char} (h : l.all Char.isDigit = true) : pyTrim l = l := by
  have hd : ∀ c ∈ l, isSpaceCh c = false := by
    intro c hc
    exact digit_not_space (List.all_eq_true.mp h c hc)
  unfold pyTrim
  rw [dropWhile_nospace hd]
  rw [dropWhile_nospace (fun c hc => hd c (List.mem_reverse.mp hc))]
  exact List.reverse_reverse l

theorem digitsToNat_append (l : List Char) (c : Char) :
    digitsToNat (l ++ [c]) = 10 * digitsToNat l + (c.toNat - 48) := by
  unfold digitsToNat
  rw [List.foldl_append]
  simp [Nat.mul_comm]

theorem isDigit_digitChar {m : Nat} (h : m < 10) :
    (Char.ofNat (48 + m)).isDigit = true := by
  interval_cases m <;> decide

theorem toNat_digitChar {m : Nat} (h : m < 10) : (Char.ofNat (48 + m)).toNat = 48 + m := by
  interval_cases m <;> decide

theorem natCharsAux_eq (n : Nat) : ∀ fuel acc, n < fuel →
    natCharsAux fuel n acc = natToChars n ++ acc := by
  induction n using Nat.strong_induction_on with
  | _ n ih =>
    intro fuel acc hf
    match fuel, hf with
    | fuel + 1, _ =>
      by_cases h10 : n < 10
      · simp [natCharsAux, natToChars, h10]
      · have hpos : 0 < n := by omega
        have hdiv : n / 10 < n := Nat.div_lt_self hpos (by omega)
        have hdf : n / 10 < fuel := by omega
        rw [natCharsAux]
        simp only [h10, if_false]
        rw [ih (n / 10) hdiv fuel _ hdf]
        conv_rhs =>
          rw [natToChars, natCharsAux]
        simp only [h10, if_false]
        rw [ih (n / 10) hdiv n _ (by omega)]
        simp

theorem natToChars_step {n : Nat} (h10 : ¬ n < 10) :
    natToChars n = natToChars (n / 10) ++ [Char.ofNat (48 + n % 10)] := by
  have hpos : 0 < n := by omega
  have hdiv : n / 10 < n := Nat.div_lt_self hpos (by omega)
  rw [natToChars, natCharsAux]
  simp only [h10, if_false]
  rw [natCharsAux_eq (n / 10) n _ (by omega)]

theorem natToChars_all_digit (n : Nat) : (natToChars n).all Char.isDigit = true := by
  induction n using Nat.strong_induction_on with
  | _ n ih =>
    by_cases h10 : n < 10
    · rw [natToChars, natCharsAux]
      simp only [h10, if_true]
      simp [isDigit_digitChar h10]
    · have hpos : 0 < n := by omega
      have hdiv : n / 10 < n := Nat.div_lt_self hpos (by omega)
      rw [natToChars_step h10, List.all_append]
      simp [ih (n / 10) hdiv, isDigit_digitChar (Nat.mod_lt n (by omega))]

theorem natToChars_ne_nil (n : Nat) : natToChars n ≠ [] := by
  by_cases h10 : n < 10
  · rw [natToChars, natCharsAux]
    simp [h10]
  · rw [natToChars_step h10]
    simp

theorem digitsToNat_natToChars (n : Nat) : digitsToNat (natToChars n) = n := by
  induction n using Nat.strong_induction_on with
  | _ n ih =>
    by_cases h10 : n < 10
    · rw [natToChars, natCharsAux]
      simp only [h10, if_true]
      unfold digitsToNat
      simp [toNat_digitChar h10]
    · have hpos : 0 < n := by omega
      have hdiv : n / 10 < n := Nat.div_lt_self hpos (by omega)
      rw [natToChars_step h10, digitsToNat_append, ih (n / 10) hdiv,
        toNat_digitChar (Nat.mod_lt n (by omega))]
      omega

theorem digit_ne_plus {c : Char} (h : c.isDigit = true) : c ≠ '+' := by
  intro hc; subst hc; exact absurd h (by decide)

theorem digit_ne_dash {c : Char} (h : c.isDigit = true) : c ≠ '-' := by
  intro hc; subst hc; exact absurd h (by decide)

theorem pyInt_natToChars (n : Nat) : pyInt (natToChars n) = some (n : Int) := by
  unfold pyInt
  rw [pyTrim_digits (natToChars_all_digit n)]
  rcases hl : natToChars n with _ | ⟨c, rest⟩
  · exact absurd hl (natToChars_ne_nil n)
  · have hall : (c :: rest).all Char.isDigit = true := hl ▸ natToChars_all_digit n
    have hc : c.isDigit = true := by
      have := List.all_eq_true.mp hall c (List.mem_cons_self c rest)
      simpa using this
    unfold pyIntCore
    simp only [digit_ne_plus hc, digit_ne_dash hc, if_false]
    unfold pyNat
    rw [if_pos ⟨by simp, hall⟩]
    rw [← hl, digitsToNat_natToChars n]
    simp

/-! ## Helper lemmas: splitting on dashes -/

theorem pySplitDash_nodash {l : PyStr} (h : '-' ∉ l) : pySplitDash l = [l] := by
  induction l with
  | nil => rfl
  | cons c rest ih =>
    have hc : ¬ c = '-' := fun hc => h (hc ▸ List.mem_cons_self c rest)
    have hr : '-' ∉ rest := fun hr => h (List.mem_cons_of_mem c hr)
    rw [pySplitDash]
    simp only [hc, if_false, ih hr]

theorem pySplitDash_append {a : PyStr} (b : PyStr) (h : '-' ∉ a) :
    pySplitDash (a ++ '-' :: b) = a :: pySplitDash b := by
  induction a with
  | nil => simp [pySplitDash]
  | cons c a' ih =>
    have hc : ¬ c = '-' := fun hc => h (hc ▸ List.mem_cons_self c a')
    have ha : '-' ∉ a' := fun ha => h (List.mem_cons_of_mem c ha)
    rw [List.cons_append, pySplitDash]
    simp only [hc, if_false, ih ha]

theorem pySplitDash_two {a b : PyStr} (ha : '-' ∉ a) (hb : '-' ∉ b) :
    pySplitDash (a ++ '-' :: b) = [a, b] := by
  rw [pySplitDash_append b ha, pySplitDash_nodash hb]

theorem not_mem_of_contains_false {l : List Char} {c : Char}
    (h : l.contains c = false) : c ∉ l := by
  intro hm
  simp at h
  exact h hm

theorem dash_not_mem_natToChars (n : Nat) : '-' ∉ natToChars n := by
  intro hm
  have h := List.all_eq_true.mp (natToChars_all_digit n) _ hm
  exact absurd rfl (digit_ne_dash (by exact h))

/-! ## Helper lemmas: element round trip -/

theorem decodeElem_encodeElem {e : PathElem} (h : goodElem e = true) :
    decodeElem (encodeElem e) = .ok e := by
  unfold goodElem at h
  rw [Bool.and_eq_true] at h
  have hkind : '-' ∉ e.kind := not_mem_of_contains_false (by simpa using h.1)
  rcases e with ⟨kind, ident⟩
  cases ident with
  | num n =>
    have hn : 0 ≤ n := by simpa [goodId] using h.2
    have hlt : ¬ n < 0 := by omega
    unfold encodeElem pyStrOfInt
    simp only [hlt, if_false]
    unfold decodeElem
    rw [pySplitDash_two hkind (dash_not_mem_natToChars n.natAbs)]
    simp [pyInt_natToChars, Int.natAbs_of_nonneg hn]
  | name s =>
    have hs : '-' ∉ s ∧ (pyInt s).isNone = true := by
      have := h.2
      unfold goodId at this
      rw [Bool.and_eq_true] at this
      exact ⟨not_mem_of_contains_false (by simpa using this.1), this.2⟩
    have hnone : pyInt s = none := by
      rcases hp : pyInt s with _ | v
      · rfl
      · rw [hp] at hs; simp at hs
    unfold encodeElem decodeElem
    rw [pySplitDash_two hkind hs.1]
    simp [hnone]

/-! ## C2: key round trip -/

/-- C2 (amended): decoding the storage encoding of a key returns the
original key for every key whose kinds contain no dash and whose
identifiers are either nonnegative numeric ids or names that contain
no dash and that int() rejects; for a name int() accepts (such as the
name 42) or a token containing extra dashes the encoding is not
reversible, see the counterexample. -/
theorem C2_key_roundtrip (k : DsKey) (h : ∀ e ∈ k, goodElem e = true) :
    decodeKey (encodeKey k) = .ok k := by
  induction k with
  | nil => rfl
  | cons e k ih =>
    unfold encodeKey decodeKey
    simp only [List.map_cons, List.mapM_cons]
    rw [decodeElem_encodeElem (h e (List.mem_cons_self e k))]
    unfold encodeKey decodeKey at ih
    rw [ih (fun x hx => h x (List.mem_cons_of_mem e hx))]
    rfl

/-- C2 counterexample: the key with the single pair (A, name 42) decodes
to the numeric id 42 instead of the original named identifier, so
decode after encode is not the identity on all keys with string
identifiers. -/
theorem C2_counterexample :
    decodeKey (encodeKey [⟨['A'], .name ['4', '2']⟩]) = .ok [⟨['A'], .num 42⟩] ∧
    decodeKey (encodeKey [⟨['A'], .name ['4', '2']⟩]) ≠
      .ok [⟨['A'], .name ['4', '2']⟩] := by
  constructor
  · rfl
  · intro h
    have : ([⟨['A'], .num 42⟩] : DsKey) = [⟨['A'], .name ['4', '2']⟩] := by
      have h0 : decodeKey (encodeKey [⟨['A'], .name ['4', '2']⟩]) =
          .ok [⟨['A'], .num 42⟩] := rfl
      exact Except.ok.inj (h0 ▸ h)
    simp at this

/-- C2 witness: a two-level key with a numeric root id and a named leaf
satisfies the side conditions and round-trips. -/
theorem C2_witness :
    (∀ e ∈ ([⟨['A'], .num 1⟩, ⟨['B'], .name ['x', 'y']⟩] : DsKey), goodElem e = true) ∧
    decodeKey (encodeKey [⟨['A'], .num 1⟩, ⟨['B'], .name ['x', 'y']⟩]) =
      .ok [⟨['A'], .num 1⟩, ⟨['B'], .name ['x', 'y']⟩] :=
  ⟨by decide, C2_key_roundtrip _ (by decide)⟩

/-! ## C1: get after put -/

/-- C1: get never returns a stored entity: the find result object is
always truthy, so the body unconditionally evaluates the unassigned
name d and raises NameError — in particular immediately after
put of the entity whose key is requested, instead of returning the
entity as the specification requires. -/
theorem C1_get_after_put_raises (ds : Datastore) (e : Entity) :
    mongoGet (mongoPut ds [e]).1 e.key = .error (.nameError "d") := rfl

/-! ## C3: value codec round trip -/

/-- C3: decoding the encoding of the one-byte non-UTF-8 string 0xFF
raises NameError (the unassigned name pp in from_utf8) instead of
returning the original byte string: the marker escape is not reversed
on decode. -/
theorem C3_nonutf8_decode_raises :
    decodeValue (encodeValue (.pystr [255])) = .error (.nameError "pp") := rfl

/-! ## C10: schema write amortisation -/

theorem sGet_sSet (l : List (String × Schema)) (k : String) (v : Schema) :
    sGet (sSet l k v) k = some v := by
  induction l with
  | nil => simp [sGet, sSet, List.find?]
  | cons a l ih =>
    by_cases ha : a.1 = k
    · simp [sGet, sSet, List.find?, ha]
    · have hskip : sGet (a :: l) k = sGet l k := by
        simp [sGet, List.find?, ha]
      unfold sSet at ih ⊢
      rw [hskip]
      by_cases hm : (sGet l k).isSome
      · simp only [hm, if_true] at ih ⊢
        rw [List.map_cons]
        simp only [ha, if_false]
        simp [sGet, List.find?, ha] at ih ⊢
        exact ih
      · simp only [hm, if_false] at ih ⊢
        rw [List.cons_append]
        simp [sGet, List.find?, ha] at ih ⊢
        exact ih

/-- C10: update_if_changed of the same record twice performs exactly one
persistent write: the second call finds the identical cached record
and saves nothing, and in general a call writes exactly once when the
cached record for the collection differs (or is missing) and zero
times when it is identical. -/
theorem C10_schema_write_amortised (m : SchemaMgr) (s : Schema) :
    (updateIfChanged (updateIfChanged m s) s).writes = (updateIfChanged m s).writes ∧
    (updateIfChanged m s).writes =
      m.writes + (if sGet m.cache s.sid = some s then 0 else 1) := by
  constructor
  · have hc : sGet (updateIfChanged m s).cache s.sid = some s := by
      unfold updateIfChanged
      rcases hg : sGet m.cache s.sid with _ | old
      · simpa using sGet_sSet m.cache s.sid s
      · by_cases he : old ≠ s
        · simpa [he] using sGet_sSet m.cache s.sid s
        · push_neg at he
          subst he
          simpa using hg
    conv_lhs => rw [updateIfChanged, hc]
    simp
  · unfold updateIfChanged
    rcases hg : sGet m.cache s.sid with _ | old
    · simp
    · by_cases he : old = s
      · subst he; simp
      · simp [he, Ne.symm he]

/-! ## C5: ancestor queries -/

theorem contains_map_mstr (l : List String) (s : String) :
    (l.map MVal.mstr).contains (MVal.mstr s) = l.contains s := by
  induction l with
  | nil => rfl
  | cons a l ih =>
    rw [List.map_cons, List.contains_cons, List.contains_cons, ih]
    congr 1

/-- C5 (amended): the ancestor filter selects exactly the documents of
the queried kind's collection whose dskey token list contains every
token of the ancestor's mongo key — containment, not path-prefix
matching — and on the specification's scenario (entities A/1, A/1/B/2,
A/1/B/2/C/3, A/9 with ancestor A/1) this containment coincides with
prefix semantics and returns exactly the first three entities. -/
theorem C5_ancestor_containment :
    (∀ (anc : DsKey) (d : MDoc),
      matchFilters (addAncestor emptyFilters anc) d =
        (mongoKeyOf anc).all (fun s => d.id.contains s)) ∧
    ((ancScenario.filter (matchFilters (addAncestor emptyFilters ancA1))).map
        (fun d => d.id)) =
      [["A-1"], ["A-1", "B-2"], ["A-1", "B-2", "C-3"]] := by
  constructor
  · intro anc d
    unfold addAncestor emptyFilters matchFilters
    simp [dSet, dMem, dGet, matchCond, matchAtom, fieldView, contains_map_mstr, mongoKeyOf]
  · rfl

/-- C5 counterexample: the kind-A entity stored at path A/2/A/1 is
matched by the ancestor filter for A/1 although the pair sequence of
A/1 is not a prefix of its key path, refuting the claim that such an
entity is never returned. -/
theorem C5_counterexample :
    matchFilters (addAncestor emptyFilters ancA1) docA2A1 = true ∧
    (mongoKeyOf ancA1).isPrefixOf docA2A1.id = false := by
  constructor <;> rfl

/-! ## C6: ordering filters -/

theorem tags_all_nin (l : List MVal) :
    ((tagsOf l).all fun x =>
        match x with
        | .mstr s => !(unorderableTags.contains s)
        | _ => true) =
      (l.all fun v =>
        match v with
        | .tagged t _ => !(unorderableTags.contains t)
        | _ => true) := by
  unfold tagsOf
  rw [List.all_filterMap]
  congr 1
  funext a
  cases a <;> rfl

theorem matchAtom_nin_tags (l : List MVal) :
    matchAtom (match tagsOf l with
               | [] => none
               | ts => some (.marr ts)) (.nin unorderableTags) =
      valOrderable (.marr l) := by
  have hv : valOrderable (.marr l) =
      (l.all fun v =>
        match v with
        | .tagged t _ => !(unorderableTags.contains t)
        | _ => true) := rfl
  rw [hv, ← tags_all_nin l]
  rcases ht : tagsOf l with _ | ⟨t0, ts⟩
  · rfl
  · rfl

/-- C6 (amended): a query consisting of an ordering on property p and
no filters returns exactly the documents that carry the corresponding
stored field and whose value for it is of an orderable type: the
exists filter excludes documents lacking the field and the tag filter
excludes long text, raw blob and embedded-entity values (also inside
repeated values).  The restriction to a filterless query is necessary:
when the query also carries an equality filter on p whose encoded
operand is a dict, the order builder's exists assignment corrupts that
equality literal and matching orderable entities are lost, see the
counterexample. -/
theorem C6_ordering_excludes (p : String) (dir : Bool) (d : MDoc) :
    matchFilters ((applyOrdering emptyFilters [(p, dir)]).1) d =
      (hasField d (mongoProp p) && orderableField d (mongoProp p)) := by
  have hF : (applyOrdering emptyFilters [(p, dir)]).1 =
      ⟨[(.field (mongoProp p), .odict [.exs true]),
        (.tagPath (mongoProp p), .odict [.nin unorderableTags])], none⟩ := rfl
  rw [hF]
  show ((matchCond (fieldView d (.field (mongoProp p))) (.odict [.exs true]) &&
        (matchCond (fieldView d (.tagPath (mongoProp p))) (.odict [.nin unorderableTags]) &&
          true)) && true) =
      (hasField d (mongoProp p) && orderableField d (mongoProp p))
  rw [Bool.and_true, Bool.and_true]
  have h1 : matchCond (fieldView d (.field (mongoProp p))) (.odict [.exs true]) =
      hasField d (mongoProp p) := by
    show (((fGet d.fields (mongoProp p)).isSome == true) && true) =
        hasField d (mongoProp p)
    rw [Bool.and_true]
    unfold hasField
    cases (fGet d.fields (mongoProp p)).isSome <;> rfl
  have hview : fieldView d (.tagPath (mongoProp p)) =
      match fGet d.fields (mongoProp p) with
      | some (.tagged t _) => some (.mstr t)
      | some (.marr l) =>
        match tagsOf l with
        | [] => none
        | ts => some (.marr ts)
      | _ => none := rfl
  have h2 : matchCond (fieldView d (.tagPath (mongoProp p))) (.odict [.nin unorderableTags]) =
      orderableField d (mongoProp p) := by
    show (matchAtom (fieldView d (.tagPath (mongoProp p))) (.nin unorderableTags) && true) =
        orderableField d (mongoProp p)
    rw [Bool.and_true, hview]
    unfold orderableField
    generalize fGet d.fields (mongoProp p) = mv
    rcases mv with _ | v
    · rfl
    · cases v with
      | marr l => exact matchAtom_nin_tags l
      | tagged t w => rfl
      | mnull => rfl
      | mbool b => rfl
      | mint n => rfl
      | mfloat f => rfl
      | mbytes s => rfl
      | mstr s => rfl
      | mbin b => rfl
      | mkeydoc k => rfl
      | mgeo x y => rfl
      | muser e f g => rfl
  rw [h1, h2]

/-- C6 counterexample: for the query ordered on a that also carries
the equality filter a equal to a datetime, the entity whose a holds
exactly that datetime — present, of an orderable type, and satisfying
the query's own filter — is not matched by the translated filter
document: the exists assignment of the order builder mutated the
equality literal (a plain dict) into a document that matches no stored
value, so the claim that all entities with p present and orderable are
returned fails. -/
theorem C6_counterexample :
    hasField docDt (mongoProp "a") = true ∧
    orderableField docDt (mongoProp "a") = true ∧
    singleFilterMatch fEqDt docDt = true ∧
    matchFilters ((applyOrdering (getFilters [fEqDt]) [("a", true)]).1) docDt = false :=
  ⟨rfl, rfl, rfl, rfl⟩

/-! ## C4: conjunction of several filters -/

theorem foldl_addFilter_andState (fs : List DsFilter) (p : String)
    (h : ∀ f ∈ fs, mongoProp f.prop = p) :
    ∀ cs, fs.foldl addFilter ⟨[], some cs⟩ =
      ⟨[], some (cs ++ fs.map (fun f => (FKey.field p, condOf f)))⟩ := by
  induction fs with
  | nil => intro cs; simp
  | cons f fs ih =>
    intro cs
    have hk : mongoProp f.prop = p := h f (List.mem_cons_self f fs)
    have hstep : addFilter ⟨[], some cs⟩ f = ⟨[], some (cs ++ [(FKey.field p, condOf f)])⟩ := by
      unfold addFilter
      rw [hk]
      rfl
    rw [List.foldl_cons, hstep, ih (fun x hx => h x (List.mem_cons_of_mem f hx))]
    simp

theorem all_map_single (rest : List DsFilter) (p : String) (d : MDoc)
    (h : ∀ f ∈ rest, mongoProp f.prop = p) :
    ((rest.map (fun f => (FKey.field p, condOf f))).all
        fun kc => matchCond (fieldView d kc.1) kc.2) =
      rest.all (fun f => singleFilterMatch f d) := by
  induction rest with
  | nil => rfl
  | cons f rest ih =>
    have hk : mongoProp f.prop = p := h f (List.mem_cons_self f rest)
    rw [List.map_cons, List.all_cons, List.all_cons,
      ih (fun x hx => h x (List.mem_cons_of_mem f hx))]
    unfold singleFilterMatch
    rw [hk]

/-- C4 (amended): when every filter of the query concerns one and the
same property, the translated filter document is equivalent to the
conjunction of the individually translated filters; and on the
specification's example, entities with a ranging over 0..99 filtered
by a greater than 20 and a at most 60 yield exactly 40 matches.  When
two distinct properties each carry several filters the conjunction
list is overwritten and filters are lost, see the counterexample. -/
theorem C4_single_property_conjunction :
    (∀ (fs : List DsFilter) (p : String) (d : MDoc),
      (∀ f ∈ fs, mongoProp f.prop = p) →
      matchFilters (getFilters fs) d = fs.all (fun f => singleFilterMatch f d)) ∧
    (((List.range 100).map intDoc).filter (matchFilters (getFilters fsRange))).length = 40 := by
  constructor
  · intro fs p d h
    match fs with
    | [] => rfl
    | [f] =>
      simp [matchFilters, getFilters, addFilter, emptyFilters, dGet, dSet, dMem,
        singleFilterMatch, List.find?]
    | f1 :: f2 :: rest =>
      have hk1 : mongoProp f1.prop = p := h f1 (by simp)
      have hk2 : mongoProp f2.prop = p := h f2 (by simp)
      have hs1 : addFilter emptyFilters f1 = ⟨[(FKey.field p, condOf f1)], none⟩ := by
        unfold addFilter emptyFilters
        rw [hk1]
        rfl
      have hs2 : addFilter ⟨[(FKey.field p, condOf f1)], none⟩ f2 =
          ⟨[], some [(FKey.field p, condOf f1), (FKey.field p, condOf f2)]⟩ := by
        unfold addFilter
        rw [hk2]
        simp [dGet, dDel, List.find?, List.filter]
      unfold getFilters
      rw [List.foldl_cons, List.foldl_cons, hs1, hs2,
        foldl_addFilter_andState rest p (fun x hx => h x (by simp [hx])) _]
      unfold matchFilters
      simp only [List.all_nil, List.cons_append, List.nil_append, List.all_cons, Bool.true_and]
      rw [all_map_single rest p d (fun x hx => h x (by simp [hx]))]
      unfold singleFilterMatch
      rw [hk1, hk2]
  · rfl

/-- C4 counterexample: with the filter sequence a greater than 0, b
greater than 0, a greater than 1, b greater than 1, the document with
a equal to 0 and b equal to 5 satisfies the translated filter document
although it violates both filters on a: the second duplicated
property overwrote the conjunction list and dropped them. -/
theorem C4_counterexample :
    matchFilters (getFilters fsAB) docAB = true ∧
    fsAB.all (fun f => singleFilterMatch f docAB) = false := by
  constructor <;> rfl

/-- C4 witness: the specification's two filters both concern property
a, and the translation matches their conjunction on the document with
a equal to 30. -/
theorem C4_witness :
    (∀ f ∈ fsRange, mongoProp f.prop = "a") ∧
    matchFilters (getFilters fsRange) (intDoc 30) =
      fsRange.all (fun f => singleFilterMatch f (intDoc 30)) :=
  ⟨by decide, (C4_single_property_conjunction.1) fsRange "a" (intDoc 30) (by decide)⟩

/-! ## C7: offset emulation -/

theorem nextOffset_done {o s : Nat} (docs : List MDoc) (h : offsetCap < o ∨ o ≤ s) :
    nextOffset ⟨o, s, docs⟩ = (false, ⟨o, s, docs⟩) := by
  unfold nextOffset
  by_cases hc : offsetCap < o
  · rw [if_pos hc]
  · rcases h with h | h
    · exact absurd h hc
    · rw [if_neg hc, if_neg (by simp; omega)]

theorem drain_real (docs : List MDoc) : ∀ (fuel o s : Nat),
    offsetCap < o ∨ o ≤ s → docs.length < fuel →
    drain fuel ⟨o, s, docs⟩ = (docs.map .real, s) := by
  induction docs with
  | nil =>
    intro fuel o s h hf
    match fuel, hf with
    | fuel + 1, _ =>
      have hc : cnext ⟨o, s, []⟩ = none := by
        unfold cnext
        rw [nextOffset_done [] h]
        rfl
      simp [drain, hc]
  | cons dd rest ih =>
    intro fuel o s h hf
    match fuel, hf with
    | fuel + 1, hf2 =>
      have hc : cnext ⟨o, s, dd :: rest⟩ = some (.real dd, ⟨o, s, rest⟩) := by
        unfold cnext
        rw [nextOffset_done (dd :: rest) h]
        rfl
      have hlen : rest.length < fuel := by
        simp at hf2
        omega
      simp [drain, hc, ih fuel o s h hlen]

theorem drain_dummies : ∀ (k fuel o s : Nat) (docs : List MDoc),
    o ≤ offsetCap → s + k = o → k + docs.length < fuel →
    drain fuel ⟨o, s, docs⟩ = (List.replicate k .dummy ++ docs.map .real, o) := by
  intro k
  induction k with
  | zero =>
    intro fuel o s docs h1 h2 h3
    have hs : o ≤ s := by omega
    rw [drain_real docs fuel o s (Or.inr hs) (by omega)]
    simp
    omega
  | succ k ih =>
    intro fuel o s docs h1 h2 h3
    match fuel, h3 with
    | fuel + 1, h3' =>
      have hno : nextOffset ⟨o, s, docs⟩ = (true, ⟨o, s + 1, docs⟩) := by
        show (if offsetCap < o then ((false : Bool), OffCursor.mk o s docs)
              else if s < o then (true, OffCursor.mk o (s + 1) docs)
              else (false, OffCursor.mk o s docs)) = (true, OffCursor.mk o (s + 1) docs)
        rw [if_neg (by omega), if_pos (by omega)]
      have hc : cnext ⟨o, s, docs⟩ = some (.dummy, ⟨o, s + 1, docs⟩) := by
        unfold cnext
        rw [hno]
        rfl
      have hrec := ih fuel o (s + 1) docs h1 (by omega) (by omega)
      simp [drain, hc, hrec, List.replicate_succ]

theorem runCursor_eq (n : Nat) (ms : List MDoc) :
    runCursor n ms =
      (List.replicate (if offsetCap < n then 0 else n) .dummy ++
        (ms.drop (if offsetSentinel ≤ n then 0 else n)).map .real,
       if offsetCap < n then 0 else n) := by
  show drain (n + ms.length + 1)
      ⟨n, 0, ms.drop (if offsetSentinel ≤ n then 0 else n)⟩ = _
  by_cases hc : offsetCap < n
  · rw [drain_real _ _ _ _ (Or.inl hc)
      (by rw [List.length_drop]; omega)]
    simp [hc]
  · have hsm : ¬ offsetSentinel ≤ n := by
      unfold offsetSentinel
      unfold offsetCap at hc
      omega
    rw [if_neg hsm]
    rw [drain_dummies n (n + ms.length + 1) n 0 (ms.drop n)
      (by unfold offsetCap at hc ⊢; omega) (by omega)
      (by rw [List.length_drop]; omega)]
    simp [hc, hsm]

/-- C7 (amended): for offset n over the matching documents, the cursor
yields, when n exceeds the cap of 10000, no placeholders and no
accounted skips but still the matching documents after the first n
(all of them when n reaches the sentinel 2147483647, where the storage
skip is reset to zero; none when n is at least the match count); and,
when n is at most the cap, exactly n placeholder results each
accounted as a skip followed by the matching documents after the
first n. -/
theorem C7_offset_emulation (n : Nat) (ms : List MDoc) :
    (runCursor n ms).1 =
      List.replicate (if offsetCap < n then 0 else n) .dummy ++
        (ms.drop (if offsetSentinel ≤ n then 0 else n)).map .real ∧
    (runCursor n ms).2 = (if offsetCap < n then 0 else n) := by
  rw [runCursor_eq]
  exact ⟨rfl, rfl⟩

theorem drop_replicate (a : MDoc) : ∀ (n m : Nat),
    List.drop n (List.replicate m a) = List.replicate (m - n) a := by
  intro n
  induction n with
  | zero => intro m; rfl
  | succ n ih =>
    intro m
    cases m with
    | zero => simp
    | succ m =>
      rw [List.replicate_succ, List.drop_succ_cons, ih m]
      congr 1
      omega

/-- C7 counterexample: offset 10001 exceeds the emulation cap, yet over
10002 matching documents the cursor yields one real result, not the
zero results the claim asserts for offsets beyond the supported
maximum. -/
theorem C7_counterexample :
    (runCursor 10001 (List.replicate 10002 docOff)).1 = [.real docOff] ∧
    (runCursor 10001 (List.replicate 10002 docOff)).1 ≠ [] := by
  have h := runCursor_eq 10001 (List.replicate 10002 docOff)
  have h1 : (runCursor 10001 (List.replicate 10002 docOff)).1 = [.real docOff] := by
    rw [h]
    rw [if_pos (by decide), if_neg (by decide)]
    rw [drop_replicate docOff 10001 10002]
    rfl
  exact ⟨h1, by rw [h1]; simp⟩

/-! ## C8: element filters on a projected repeated property -/

/-- C8: with projection on the repeated property a, the document
holding a = [1, 2, 3] under the inequality filter a less than 3 is
split into the partial entity carrying [1] with the partial carrying
[2] left buffered; but under the equality filter a equal to 2 the
derived element filter is the closure over the enclosing function's
unassigned local spec, so the pull raises NameError instead of
yielding the partial carrying [2]. -/
theorem C8_projection_equality_filter_raises :
    nextOnDoc curLt3 docList123 =
      .ok (⟨["Q-1"], [("a", .marr [.mint 1])]⟩,
           { curLt3 with buffer := [⟨["Q-1"], [("a", .marr [.mint 2])]⟩] }) ∧
    splitProjected curEq2 docList123 = .error (.nameError "spec") := by
  constructor <;> rfl

/-! ## C9: projection on several repeated properties -/

/-- C9: when at least two projected properties of the fetched document
are repeated, the split is skipped with a warning emitted (no
exception), and the pull returns the document whole — one result
carrying every element — after the external field-selection helper. -/
theorem C9_multi_repeated_projection_degrades (c : ProjCursor) (e : MDoc)
    (h : 2 ≤ (repeatedProjected c.projected e).length) :
    splitProjected c e = .ok (false, { c with warns := c.warns + 1 }) ∧
    nextOnDoc c e = .ok (prepareProps c.projected e, { c with warns := c.warns + 1 }) := by
  rcases hr : repeatedProjected c.projected e with _ | ⟨x, l2⟩
  · rw [hr] at h
    simp at h
  · rcases l2 with _ | ⟨y, l3⟩
    · rw [hr] at h
      simp at h
    · have hs : splitProjected c e = .ok (false, { c with warns := c.warns + 1 }) := by
        unfold splitProjected
        rw [hr]
      refine ⟨hs, ?_⟩
      unfold nextOnDoc
      rw [hs]
      rfl

/-- C9 witness: the cursor projecting a and b over the document where
both hold lists warns once and hands the document through unsplit. -/
theorem C9_witness :
    2 ≤ (repeatedProjected curTwoProj.projected docTwoRep).length ∧
    splitProjected curTwoProj docTwoRep =
      .ok (false, { curTwoProj with warns := curTwoProj.warns + 1 }) ∧
    nextOnDoc curTwoProj docTwoRep =
      .ok (prepareProps curTwoProj.projected docTwoRep,
           { curTwoProj with warns := curTwoProj.warns + 1 }) :=
  ⟨by decide,
   (C9_multi_repeated_projection_degrades curTwoProj docTwoRep (by decide)).1,
   (C9_multi_repeated_projection_degrades curTwoProj docTwoRep (by decide)).2⟩

end DSMongo
